import Mathlib

/-
Verification development for the osa-mailer Entry Aggregation & Composition
Engine (src/entries.rs) and Template Dispatch layer (src/render.rs).

The Rust code is shallowly embedded:
* `serde_json::Value` (with the order-preserving map feature the spec calls an
  "ordered JSON object") becomes the inductive `Json`; an object is an ordered
  association list of key/value pairs.
* serde's compact serialization `Value::to_string()` becomes `toCompact`.
* `crc::Crc<u32>` with `CRC_32_ISO_HDLC` becomes `crc32_iso_hdlc_checksum`,
  the standard reflected CRC-32 (poly 0xEDB88320, init/xorout 0xFFFFFFFF),
  over the UTF-8 bytes of the input string.
* `chrono::DateTime<FixedOffset>` values are compared by their instant; they
  are embedded as integers (`utc : Int`).
* Machine integers (u32 results of the checksum) are represented as `Nat`;
  the CRC algorithm keeps every intermediate value below 2^32 by construction
  (only shifts right and xors of 32-bit quantities occur), so no modulus is
  needed.
* File paths in the template layer are abstracted to the only datum the code
  reads from them: the optional extension of an optional path.
* The external template libraries (tera, handlebars, liquid) are abstracted:
  `render` returns a description of the library invocation it would perform.
-/

set_option maxRecDepth 40000

namespace OsaMailer

/-- Dynamic JSON value, mirroring `serde_json::Value`. Numbers are embedded as
integers (every number appearing in the verified code paths is an integer;
serde prints integers without a decimal point). Objects are ordered
association lists, mirroring the order-preserving `serde_json::Map`. -/
inductive Json where
  | null
  | bool (b : Bool)
  | num (n : Int)
  | str (s : String)
  | arr (elems : List Json)
  | obj (fields : List (String × Json))

/-- An ordered JSON object: the representation of `serde_json::Map<String, Value>`. -/
abbrev JsonObj := List (String × Json)

/-- Lookup of a key in an ordered JSON object (first matching binding),
mirroring `Map::get`. -/
def lookupJ (k : String) : JsonObj → Option Json
  | [] => Option.none
  | (k', v) :: rest => if k' = k then some v else lookupJ k rest

/-- Removal of the first binding of a key, mirroring `Map::remove`. -/
def eraseJ (k : String) : JsonObj → JsonObj
  | [] => []
  | (k', v) :: rest => if k' = k then rest else (k', v) :: eraseJ k rest

/-- In-place replacement of the value bound to a key (position preserved),
mirroring mutation through the reference returned by `Map::entry`. -/
def setJ (k : String) (v : Json) : JsonObj → JsonObj
  | [] => []
  | (k', w) :: rest => if k' = k then (k', v) :: rest else (k', w) :: setJ k v rest

/-- Insert a value only when the key is absent (new bindings go to the end of
the ordered map), mirroring `Map::entry(k).or_insert(v)`. -/
def insertAbsent (k : String) (v : Json) (t : JsonObj) : JsonObj :=
  match lookupJ k t with
  | some _ => t
  | Option.none => t ++ [(k, v)]

/-- Embeds `k.strip_prefix('+')`: the bare key when `k` starts with the
accumulation marker `+`, and `none` otherwise. -/
def plusKey (k : String) : Option String :=
  match k.data with
  | '+' :: rest => some (String.mk rest)
  | _ => Option.none

/-- JSON string escaping as performed by serde_json's compact serializer:
quote and backslash are escaped, control characters use the short escapes
`\b \t \n \f \r` or a `\u00XX` escape with lowercase hex digits. -/
def escapeJsonChar (c : Char) : String :=
  if c = '"' then "\\\""
  else if c = '\\' then "\\\\"
  else if c.toNat = 8 then "\\b"
  else if c.toNat = 9 then "\\t"
  else if c.toNat = 10 then "\\n"
  else if c.toNat = 12 then "\\f"
  else if c.toNat = 13 then "\\r"
  else if c.toNat < 32 then
    "\\u00" ++ String.mk [Nat.digitChar (c.toNat / 16), Nat.digitChar (c.toNat % 16)]
  else String.mk [c]

/-- Escaped, quoted JSON string literal. -/
def quoteJson (s : String) : String :=
  "\"" ++ (s.data.foldr (fun c acc => escapeJsonChar c ++ acc) "") ++ "\""

mutual

/-- Compact JSON serialization, mirroring `serde_json::Value::to_string()`
(no whitespace, object fields in map order). -/
def toCompact : Json → String
  | .null => "null"
  | .bool b => if b then "true" else "false"
  | .num n => toString n
  | .str s => quoteJson s
  | .arr xs => "[" ++ toCompactElems xs ++ "]"
  | .obj fs => "\x7b" ++ toCompactFields fs ++ "\x7d"

/-- Comma-separated serialization of array elements. -/
def toCompactElems : List Json → String
  | [] => ""
  | [x] => toCompact x
  | x :: y :: xs => toCompact x ++ "," ++ toCompactElems (y :: xs)

/-- Comma-separated serialization of object fields. -/
def toCompactFields : List (String × Json) → String
  | [] => ""
  | [(k, v)] => quoteJson k ++ ":" ++ toCompact v
  | (k, v) :: f :: fs => quoteJson k ++ ":" ++ toCompact v ++ "," ++ toCompactFields (f :: fs)

end

/-- One round of the reflected CRC-32 bit loop with the reflected ISO-HDLC
polynomial 0xEDB88320. -/
def crc32Round (c : Nat) : Nat :=
  if c % 2 = 1 then Nat.xor (c / 2) 0xEDB88320 else c / 2

/-- Iterated CRC-32 rounds. -/
def crc32Rounds : Nat → Nat → Nat
  | 0, c => c
  | n + 1, c => crc32Rounds n (crc32Round c)

/-- CRC-32 state update over a byte list (reflected algorithm: xor the byte
into the low bits, then eight shift rounds). -/
def crc32Aux : List Nat → Nat → Nat
  | [], c => c
  | b :: bs, c => crc32Aux bs (crc32Rounds 8 (Nat.xor c b))

/-- Embeds `crc32_iso_hdlc_checksum`: the CRC-32/ISO-HDLC checksum
(init 0xFFFFFFFF, reflected in/out, final xor 0xFFFFFFFF) of a byte slice. -/
def crc32_iso_hdlc_checksum (bytes : List Nat) : Nat :=
  Nat.xor (crc32Aux bytes 0xFFFFFFFF) 0xFFFFFFFF

/-- UTF-8 encoding of one character, as `str::as_bytes` sees it. -/
def utf8Char (c : Char) : List Nat :=
  let n := c.toNat
  if n < 0x80 then [n]
  else if n < 0x800 then [0xC0 ||| (n >>> 6), 0x80 ||| (n &&& 0x3F)]
  else if n < 0x10000 then
    [0xE0 ||| (n >>> 12), 0x80 ||| ((n >>> 6) &&& 0x3F), 0x80 ||| (n &&& 0x3F)]
  else
    [0xF0 ||| (n >>> 18), 0x80 ||| ((n >>> 12) &&& 0x3F), 0x80 ||| ((n >>> 6) &&& 0x3F),
      0x80 ||| (n &&& 0x3F)]

/-- UTF-8 bytes of a string, mirroring `str::as_bytes`. -/
def utf8Bytes (s : String) : List Nat :=
  s.data.foldr (fun c acc => utf8Char c ++ acc) []

/-- Lowercase hexadecimal rendering with no leading zeros, mirroring
Rust's `format!("\x7b:x\x7d", n)`. -/
def toHexLower (n : Nat) : String :=
  String.mk (Nat.toDigits 16 n)

/-- Embeds `string_crc32_iso_hdlc_checksum`: lowercase-hex CRC-32/ISO-HDLC of
the UTF-8 bytes of a string. -/
def string_crc32_iso_hdlc_checksum (s : String) : String :=
  toHexLower (crc32_iso_hdlc_checksum (utf8Bytes s))

/-- Embeds the serialization of `AccumulatedValue \x7b order, checksum, value \x7d`
as pushed by `copy_and_accumulate`: `json!` serializes the struct fields in
declaration order, and the checksum is the lowercase-hex CRC-32/ISO-HDLC of
the compact serialization of the accumulated value. -/
def accItem (n : Nat) (v : Json) : Json :=
  .obj [("order", .num (Int.ofNat n)),
        ("checksum", .str (string_crc32_iso_hdlc_checksum (toCompact v))),
        ("value", v)]

/-- Embeds the `EmailComposeMethod` enum (Single / Batch). -/
inductive EmailComposeMethod where
  | single
  | batch

/-- Embeds the accumulation of one value at a bare key (the prefixed key has
already been removed from `t1`): `target.entry(key_name).or_insert_with(
Array::new)` followed by the guarded push of the `AccumulatedValue` — a fresh
one-element array when the bare key is absent, an append when it holds an
array, and no change when it holds any other value (the `if let Array` guard
fails). -/
def accTarget (bare : String) (v : Json) (t1 : JsonObj) : JsonObj :=
  match lookupJ bare t1 with
  | Option.none => t1 ++ [(bare, .arr [accItem 1 v])]
  | some (.arr l) => setJ bare (.arr (l ++ [accItem (l.length + 1) v])) t1
  | some _ => t1

mutual

/-- Embeds `copy_and_accumulate(source, target, email_compose_method)` from
src/entries.rs: scans the source fields in order; a `+`-prefixed key switches
the mode to Batch, removes the prefixed key from the target, and appends an
`AccumulatedValue` to the array at the bare key (creating an empty array when
the bare key is absent; appending nothing when the bare key holds a non-array
value); a nested object recurses into the object at the same key of the
target (creating it from a copy of the source object when absent, and doing
nothing when the target holds a non-object there); any other value is written
only when the key is absent in the target. The Rust `&mut` target and mode
become the returned pair. -/
def copy_and_accumulate : JsonObj → JsonObj → EmailComposeMethod →
    JsonObj × EmailComposeMethod
  | [], t, m => (t, m)
  | (k, v) :: rest, t, m =>
    match plusKey k with
    | some bare =>
      copy_and_accumulate rest (accTarget bare v (eraseJ k t)) .batch
    | Option.none =>
      match v with
      | .obj src =>
        (match lookupJ k t with
        | some (.obj tv) =>
          let r := copy_and_accumulate src tv m
          copy_and_accumulate rest (setJ k (.obj r.1) t) r.2
        | some _ => copy_and_accumulate rest t m
        | Option.none =>
          let r := copy_and_accumulate src src m
          copy_and_accumulate rest (t ++ [(k, .obj r.1)]) r.2)
      | _ => copy_and_accumulate rest (insertAbsent k v t) m

end

/-- Embeds the `Email` header struct (fields `from` and `to` are called
`from_` and `to_` because they are Lean keywords). -/
structure Email where
  system : String
  subsystem : String
  from_ : String
  to_ : List String
  cc : List String
  bcc : List String
  reply_to : List String
  subject : String
  template : String
  alternative_content : String
  attachments : List String
  custom_key : String

/-- Serialization of an `Email` as serde derives it: an object with the fields
in declaration order. -/
def emailJson (e : Email) : Json :=
  .obj [("system", .str e.system), ("subsystem", .str e.subsystem),
        ("from", .str e.from_),
        ("to", .arr (e.to_.map .str)), ("cc", .arr (e.cc.map .str)),
        ("bcc", .arr (e.bcc.map .str)),
        ("reply_to", .arr (e.reply_to.map .str)), ("subject", .str e.subject),
        ("template", .str e.template),
        ("alternative_content", .str e.alternative_content),
        ("attachments", .arr (e.attachments.map .str)),
        ("custom_key", .str e.custom_key)]

/-- Embeds the `Entry` struct. `utc` is the instant of the zoned timestamp
(DateTime values are ordered by their instant). -/
structure Entry where
  id : String
  utc : Int
  notify_error : List String
  email : Email
  context : JsonObj

/-- Embeds `ParsedEntry` (entry plus parse metadata). -/
structure ParsedEntry where
  id : String
  path : Option String
  entry : Entry

/-- Embeds `ParsedEntry::email_id`: CRC-32/ISO-HDLC of the serde serialization
of the entry's header. -/
def email_id (p : ParsedEntry) : Nat :=
  crc32_iso_hdlc_checksum (utf8Bytes (toCompact (emailJson p.entry.email)))

/-- Embeds `ComposedEmail`. -/
structure ComposedEmail where
  id : Nat
  header : Email
  context : JsonObj

/-- Appending an entry to its group in the mapping keyed by e-mail identity,
mirroring `email_entries.entry(email_id).or_insert_with(Vec::new).push(..)`.
The `HashMap` is embedded as an association list (group membership and group
contents are what the verified claims depend on, not the map's iteration
order). -/
def insertEntryGroup : List (Nat × List ParsedEntry) → Nat → ParsedEntry →
    List (Nat × List ParsedEntry)
  | [], gid, e => [(gid, [e])]
  | (k, g) :: rest, gid, e =>
    if k = gid then (k, g ++ [e]) :: rest else (k, g) :: insertEntryGroup rest gid e

/-- Stable insertion of an entry into a list sorted ascending by `utc`: the
entry is placed before the first element with an equal-or-later timestamp. -/
def orderedInsertUtc (e : ParsedEntry) : List ParsedEntry → List ParsedEntry
  | [] => [e]
  | x :: xs => if e.entry.utc ≤ x.entry.utc then e :: x :: xs
               else x :: orderedInsertUtc e xs

/-- Embeds `value.sort_by(|a, b| a.entry.utc.cmp(&b.entry.utc))`: Rust's
`sort_by` is a stable ascending sort, and a stable sort's result is uniquely
determined by the input order and the comparator, so it is embedded as the
stable insertion sort. -/
def sortByUtc : List ParsedEntry → List ParsedEntry
  | [] => []
  | x :: xs => orderedInsertUtc x (sortByUtc xs)

/-- Embeds `map_emails`: group the pool by e-mail identity in arrival order,
then stable-sort every group ascending by `utc`. -/
def map_emails (pool : List ParsedEntry) : List (Nat × List ParsedEntry) :=
  (pool.foldl (fun m e => insertEntryGroup m (email_id e) e) []).map
    (fun g => (g.1, sortByUtc g.2))

/-- Association-list lookup of a group by e-mail identity. -/
def lookupGroup (gid : Nat) : List (Nat × List ParsedEntry) → Option (List ParsedEntry)
  | [] => Option.none
  | (k, g) :: rest => if k = gid then some g else lookupGroup gid rest

/-- One iteration of the entry loop in `compose_emails`: merge the entry's
context into the accumulated context, then, when the mode is still Single,
emit a ComposedEmail carrying the entry's own header and unmerged context. -/
def composeStep (gid : Nat) (st : JsonObj × EmailComposeMethod × List ComposedEmail)
    (e : ParsedEntry) : JsonObj × EmailComposeMethod × List ComposedEmail :=
  let r := copy_and_accumulate e.entry.context st.1 st.2.1
  let out :=
    match r.2 with
    | .single => st.2.2 ++ [⟨gid, e.entry.email, e.entry.context⟩]
    | .batch => st.2.2
  (r.1, r.2, out)

/-- The group body of `compose_emails`: the first entry's context seeds the
accumulator, every entry is merged (and possibly emitted) in order, and a
Batch final mode emits one e-mail with the first entry's header and the
accumulated context. `none` embeds the `expect` panic on an empty group. -/
def composeGroup (gid : Nat) (entries : List ParsedEntry) : Option (List ComposedEmail) :=
  match entries with
  | [] => Option.none
  | first :: _ =>
    let st := entries.foldl (composeStep gid) (first.entry.context, .single, [])
    some
      (match st.2.1 with
      | .batch => st.2.2 ++ [⟨gid, first.entry.email, st.1⟩]
      | .single => st.2.2)

/-- Embeds `compose_emails`: every group contributes its composed e-mails.
The association list is traversed in order (the Rust `HashMap` iteration
order is arbitrary; no verified claim depends on the inter-group order). -/
def compose_emails : List (Nat × List ParsedEntry) → Option (List ComposedEmail)
  | [] => some []
  | (gid, g) :: rest =>
    match composeGroup gid g, compose_emails rest with
    | some out, some outs => some (out ++ outs)
    | _, _ => Option.none

/-- The context/mode part of the compose loop: folding `copy_and_accumulate`
over a list of entries. -/
def mergeFrom (st : JsonObj × EmailComposeMethod) (entries : List ParsedEntry) :
    JsonObj × EmailComposeMethod :=
  entries.foldl (fun s e => copy_and_accumulate e.entry.context s.1 s.2) st

/-- Number of leading entries of a group whose merge leaves the compose mode
at Single (each of them self-emits); the first entry whose merge switches the
mode to Batch, and every entry after it, is not counted. -/
def flipCount : List ParsedEntry → JsonObj → Nat
  | [], _ => 0
  | e :: rest, acc =>
    match copy_and_accumulate e.entry.context acc .single with
    | (acc', .single) => flipCount rest acc' + 1
    | (_, .batch) => 0

/-- Embeds the `TemplateEngine` enum from src/render.rs. -/
inductive TemplateEngine where
  | tera
  | liquid
  | handlebars
  | none

/-- Embeds the `Template` enum: the selected engine together with the
template contents it will render. -/
inductive Template where
  | tera (contents : String)
  | handlebars (contents : String)
  | liquid (contents : String)
  | unknown (engineName : String) (contents : String)
  | noEngine (contents : String)

/-- Embeds `TemplateData`: the template text plus the optional source path,
abstracted to the only datum the code reads from the path — its optional
extension (`none` = no path, `some none` = a path without extension,
`some (some e)` = a path with extension `e`). -/
structure TemplateData where
  contents : String
  fileExt : Option (Option String)

/-- Embeds `DetectionMethod` (Auto, or Force with an explicit engine). -/
inductive DetectionMethod where
  | auto
  | force (engine : TemplateEngine)

/-- Word character of the `\w` class in the marker regex (the engine names
matched are ASCII, so the ASCII word class is faithful here). -/
def isWordChar (c : Char) : Bool :=
  c.isAlphanum || c = '_'

/-- Case-insensitive literal match: consumes the pattern (given lowercase)
against the input, returning the consumed input characters and the rest. -/
def matchCaseInsensitive : List Char → List Char → Option (List Char × List Char)
  | [], cs => some ([], cs)
  | _ :: _, [] => Option.none
  | p :: ps, c :: cs =>
    if c.toLower = p then
      match matchCaseInsensitive ps cs with
      | some (consumed, rest) => some (c :: consumed, rest)
      | Option.none => Option.none
    else Option.none

/-- Exact literal match, returning the rest of the input. -/
def matchExact : List Char → List Char → Option (List Char)
  | [], cs => some cs
  | _ :: _, [] => Option.none
  | p :: ps, c :: cs => if c = p then matchExact ps cs else Option.none

/-- Tries to match the marker regex `<!--template\s+(\w+)\s?-->`
(case-insensitive) at the head of the input; returns the matched characters
and the captured engine name. The regex is deterministic here: `\s+` and
`\w+` take maximal runs (whitespace, word characters and the `-` that starts
`-->` are pairwise disjoint classes), and the optional `\s?` succeeds exactly
when `-->` follows it. -/
def markerAt (cs : List Char) : Option (List Char × List Char) :=
  match matchCaseInsensitive "<!--template".data cs with
  | Option.none => Option.none
  | some (p1, r1) =>
    let ws := r1.takeWhile Char.isWhitespace
    if ws.isEmpty then Option.none
    else
      let r2 := r1.drop ws.length
      let wd := r2.takeWhile isWordChar
      if wd.isEmpty then Option.none
      else
        let r3 := r2.drop wd.length
        match r3 with
        | [] => Option.none
        | c :: r4 =>
          if c.isWhitespace then
            match matchExact "-->".data r4 with
            | some _ => some (p1 ++ ws ++ wd ++ [c] ++ "-->".data, wd)
            | Option.none => Option.none
          else
            match matchExact "-->".data r3 with
            | some _ => some (p1 ++ ws ++ wd ++ "-->".data, wd)
            | Option.none => Option.none

/-- Leftmost-first scan for the marker regex. -/
def findMarkerAux : List Char → Option (List Char × List Char)
  | [] => Option.none
  | c :: rest =>
    match markerAt (c :: rest) with
    | some r => some r
    | Option.none => findMarkerAux rest

/-- Embeds the `find_iter`/`captures_iter` use in `From<&str> for Template`:
the first match of the magic comment regex, as (matched text, raw engine
name). -/
def findMarker (s : String) : Option (String × String) :=
  match findMarkerAux s.data with
  | some (matched, engine) => some (String.mk matched, String.mk engine)
  | Option.none => Option.none

/-- Lowercasing, mirroring `str::to_lowercase` on the ASCII engine names the
marker captures (`\w+` words); implemented over the character list so that it
evaluates inside the kernel. -/
def toLowerStr (s : String) : String :=
  String.mk (s.data.map Char.toLower)

/-- Whitespace trimming at both ends, mirroring `str::trim`. -/
def trimStr (s : String) : String :=
  String.mk
    (((s.data.dropWhile Char.isWhitespace).reverse.dropWhile
        Char.isWhitespace).reverse)

/-- Removal of the first occurrence of a pattern, mirroring
`contents.replacen(found_match, "", 1)`. -/
def removeFirstOccurrence (pat : List Char) : List Char → List Char
  | [] => []
  | c :: rest =>
    if pat.isPrefixOf (c :: rest) then (c :: rest).drop pat.length
    else c :: removeFirstOccurrence pat rest

/-- Embeds `From<&str> for Template`: inspect the contents for the magic
comment `<!--template engine_name-->`; when found, strip its first occurrence,
trim, and select the engine by its lowercased name (an unrecognized name
yields `Template::Unknown`); when absent, select `Template::NoEngine` with
the contents unchanged. -/
def template_from_str (contents : String) : Template :=
  match findMarker contents with
  | Option.none => .noEngine contents
  | some (matched, engineRaw) =>
    let stripped := trimStr (String.mk (removeFirstOccurrence matched.data contents.data))
    let engine := toLowerStr engineRaw
    match engine with
    | "tera" => .tera stripped
    | "hbs" => .handlebars stripped
    | "handlebars" => .handlebars stripped
    | "liq" => .liquid stripped
    | "liquid" => .liquid stripped
    | _ => .unknown engine stripped

/-- Embeds `From<&TemplateData> for Template`: a recognized file extension
(`tera`, `hbs`, `liq`) selects the engine with an early return; otherwise the
contents are scanned for the magic comment. -/
def template_from_data (td : TemplateData) : Template :=
  match td.fileExt with
  | some (some ext) =>
    (match ext with
    | "tera" => .tera td.contents
    | "hbs" => .handlebars td.contents
    | "liq" => .liquid td.contents
    | _ => template_from_str td.contents)
  | some Option.none => template_from_str td.contents
  | Option.none => template_from_str td.contents

/-- The engine-selection stage of `render`: Auto detection delegates to
`From<&TemplateData>`; Force maps the explicit engine directly, ignoring both
the extension and the contents. -/
def selectTemplate (td : TemplateData) (d : DetectionMethod) : Template :=
  match d with
  | .auto => template_from_data td
  | .force e =>
    match e with
    | .tera => .tera td.contents
    | .liquid => .liquid td.contents
    | .handlebars => .handlebars td.contents
    | .none => .noEngine td.contents

/-- Result of `render`, with the external template libraries abstracted: a
NoEngine template returns its text verbatim as `output`; the tera, handlebars
and liquid branches hand the template text and the context to the respective
library, recorded as `engineInvocation` (the library call itself may still
fail inside the abstracted boundary). -/
inductive RenderResult where
  | output (s : String)
  | engineInvocation (engineName : String) (template : String) (context : Json)

/-- Embeds `render` up to the external-library boundary: select the template
via the detection method, fail with the structured "Unknown template engine"
error when the marker named an engine outside the closed set (without any
library invocation), return the raw text for NoEngine, and invoke the
selected library otherwise. The `template_extension` parameter of the Rust
function only affects the name of the in-memory template registered with the
tera library, which lies inside the abstracted boundary. -/
def render (td : TemplateData) (ctx : Json) (d : DetectionMethod) :
    Except String RenderResult :=
  match selectTemplate td d with
  | .tera c => .ok (.engineInvocation "tera" c ctx)
  | .handlebars c => .ok (.engineInvocation "handlebars" c ctx)
  | .liquid c => .ok (.engineInvocation "liquid" c ctx)
  | .unknown engine _ => .error ("Unknown template engine: `" ++ engine ++ "`")
  | .noEngine raw => .ok (.output raw)

/-! Basic lemmas about the ordered-object operations. -/

theorem lookupJ_setJ_eq (k : String) (v w : Json) (t : JsonObj)
    (h : lookupJ k t = some w) : lookupJ k (setJ k v t) = some v := by
  induction t with
  | nil => simp [lookupJ] at h
  | cons p rest ih =>
    obtain ⟨k', w'⟩ := p
    by_cases hk : k' = k
    · simp [setJ, hk, lookupJ]
    · simp only [lookupJ, if_neg hk] at h
      simp only [setJ, if_neg hk, lookupJ, if_neg hk]
      exact ih h

theorem lookupJ_append_right (q : String) (t u : JsonObj)
    (h : lookupJ q t = Option.none) : lookupJ q (t ++ u) = lookupJ q u := by
  induction t with
  | nil => rfl
  | cons p rest ih =>
    obtain ⟨k', v⟩ := p
    by_cases hq : k' = q
    · simp [lookupJ, hq] at h
    · simp only [lookupJ, if_neg hq] at h
      simpa [lookupJ, hq] using ih h

theorem lookupJ_insertAbsent_self (k : String) (v : Json) (t : JsonObj) :
    lookupJ k (insertAbsent k v t) = some ((lookupJ k t).getD v) := by
  unfold insertAbsent
  cases hlk : lookupJ k t with
  | some w => simp [hlk]
  | none =>
    rw [lookupJ_append_right k t [(k, v)] hlk]
    simp [lookupJ]

theorem insertAbsent_of_some (k : String) (v w : Json) (t : JsonObj)
    (h : lookupJ k t = some w) : insertAbsent k v t = t := by
  unfold insertAbsent
  rw [h]

theorem insertAbsent_idem (k : String) (v : Json) (t : JsonObj) :
    insertAbsent k v (insertAbsent k v t) = insertAbsent k v t := by
  refine insertAbsent_of_some k v ((lookupJ k t).getD v) _ ?_
  exact lookupJ_insertAbsent_self k v t

/-! Lemmas about the accumulation step at one `+` key. -/

theorem accTarget_lookup_fresh (bare : String) (v : Json) (t1 : JsonObj)
    (h : lookupJ bare t1 = Option.none) :
    lookupJ bare (accTarget bare v t1) = some (.arr [accItem 1 v]) := by
  unfold accTarget
  rw [h, lookupJ_append_right bare t1 _ h]
  simp [lookupJ]

theorem accTarget_lookup_arr (bare : String) (v : Json) (l : List Json)
    (t1 : JsonObj) (h : lookupJ bare t1 = some (.arr l)) :
    lookupJ bare (accTarget bare v t1) =
      some (.arr (l ++ [accItem (l.length + 1) v])) := by
  unfold accTarget
  rw [h]
  exact lookupJ_setJ_eq bare _ _ t1 h

theorem accTarget_lookup_blocked (bare : String) (v w : Json) (t1 : JsonObj)
    (h : lookupJ bare t1 = some w) (h2 : ∀ l, w ≠ .arr l) :
    lookupJ bare (accTarget bare v t1) = some w := by
  unfold accTarget
  cases w with
  | arr l => exact absurd rfl (h2 l)
  | null => rw [h]; exact h
  | bool b => rw [h]; exact h
  | num n => rw [h]; exact h
  | str s => rw [h]; exact h
  | obj o => rw [h]; exact h

theorem ca_nil (t : JsonObj) (m : EmailComposeMethod) :
    copy_and_accumulate [] t m = (t, m) :=
  copy_and_accumulate.eq_1 t m

theorem ca_plus (k bare : String) (v : Json) (rest : JsonObj) (t : JsonObj)
    (m : EmailComposeMethod) (h : plusKey k = some bare) :
    copy_and_accumulate ((k, v) :: rest) t m =
      copy_and_accumulate rest (accTarget bare v (eraseJ k t)) .batch := by
  cases v with
  | obj o => rw [copy_and_accumulate.eq_2]; simp only [h]
  | null =>
    rw [copy_and_accumulate.eq_3 t m k .null rest (fun _ hh => Json.noConfusion hh)]
    simp only [h]
  | bool b =>
    rw [copy_and_accumulate.eq_3 t m k (.bool b) rest (fun _ hh => Json.noConfusion hh)]
    simp only [h]
  | num n =>
    rw [copy_and_accumulate.eq_3 t m k (.num n) rest (fun _ hh => Json.noConfusion hh)]
    simp only [h]
  | str s =>
    rw [copy_and_accumulate.eq_3 t m k (.str s) rest (fun _ hh => Json.noConfusion hh)]
    simp only [h]
  | arr l =>
    rw [copy_and_accumulate.eq_3 t m k (.arr l) rest (fun _ hh => Json.noConfusion hh)]
    simp only [h]

theorem ca_scalar (k : String) (v : Json) (rest : JsonObj) (t : JsonObj)
    (m : EmailComposeMethod) (h : plusKey k = Option.none)
    (h2 : ∀ o, v ≠ .obj o) :
    copy_and_accumulate ((k, v) :: rest) t m =
      copy_and_accumulate rest (insertAbsent k v t) m := by
  cases v with
  | obj o => exact absurd rfl (h2 o)
  | null =>
    rw [copy_and_accumulate.eq_3 t m k .null rest (fun _ hh => Json.noConfusion hh)]
    simp only [h]
  | bool b =>
    rw [copy_and_accumulate.eq_3 t m k (.bool b) rest (fun _ hh => Json.noConfusion hh)]
    simp only [h]
  | num n =>
    rw [copy_and_accumulate.eq_3 t m k (.num n) rest (fun _ hh => Json.noConfusion hh)]
    simp only [h]
  | str s =>
    rw [copy_and_accumulate.eq_3 t m k (.str s) rest (fun _ hh => Json.noConfusion hh)]
    simp only [h]
  | arr l =>
    rw [copy_and_accumulate.eq_3 t m k (.arr l) rest (fun _ hh => Json.noConfusion hh)]
    simp only [h]

theorem ca_obj_merge (k : String) (src tv rest : JsonObj) (t : JsonObj)
    (m : EmailComposeMethod) (h : plusKey k = Option.none)
    (h2 : lookupJ k t = some (.obj tv)) :
    copy_and_accumulate ((k, .obj src) :: rest) t m =
      copy_and_accumulate rest
        (setJ k (.obj (copy_and_accumulate src tv m).1) t)
        (copy_and_accumulate src tv m).2 := by
  rw [copy_and_accumulate.eq_2]
  simp only [h, h2]

theorem ca_obj_fresh (k : String) (src rest : JsonObj) (t : JsonObj)
    (m : EmailComposeMethod) (h : plusKey k = Option.none)
    (h2 : lookupJ k t = Option.none) :
    copy_and_accumulate ((k, .obj src) :: rest) t m =
      copy_and_accumulate rest
        (t ++ [(k, .obj (copy_and_accumulate src src m).1)])
        (copy_and_accumulate src src m).2 := by
  rw [copy_and_accumulate.eq_2]
  simp only [h, h2]

theorem ca_obj_blocked (k : String) (src rest : JsonObj) (w : Json)
    (t : JsonObj) (m : EmailComposeMethod) (h : plusKey k = Option.none)
    (h2 : lookupJ k t = some w) (h3 : ∀ o, w ≠ .obj o) :
    copy_and_accumulate ((k, .obj src) :: rest) t m =
      copy_and_accumulate rest t m := by
  rw [copy_and_accumulate.eq_2]
  cases w with
  | obj o => exact absurd rfl (h3 o)
  | null => simp only [h, h2]
  | bool b => simp only [h, h2]
  | num n => simp only [h, h2]
  | str s => simp only [h, h2]
  | arr l => simp only [h, h2]

/-! Mode monotonicity: once Batch, always Batch. -/

theorem ca_mode_batch (src t : JsonObj) (m : EmailComposeMethod)
    (hm : m = .batch) : (copy_and_accumulate src t m).2 = .batch := by
  induction src, t, m using copy_and_accumulate.induct with
  | case1 t m =>
    rw [ca_nil]
    exact hm
  | case2 k v rest t m bare hpk ih =>
    rw [ca_plus k bare v rest t m hpk]
    exact ih rfl
  | case3 k rest t m hpk src tv hlk r ih1 ih2 =>
    rw [ca_obj_merge k src tv rest t m hpk hlk]
    exact ih2 (ih1 hm)
  | case4 k rest t m hpk src w hw hlk ih =>
    rw [ca_obj_blocked k src rest w t m hpk hlk (fun o ho => hw o ho)]
    exact ih hm
  | case5 k rest t m hpk src hlk r ih1 ih2 =>
    rw [ca_obj_fresh k src rest t m hpk hlk]
    exact ih2 (ih1 hm)
  | case6 k v rest t m hpk hobj ih =>
    rw [ca_scalar k v rest t m hpk (fun o ho => hobj o ho)]
    exact ih hm

/-! Locality: merging a source whose top-level keys avoid `q` (both as a plain
key and as the bare form of an accumulation key) never changes the binding of
`q` in the target. -/

theorem composeFold_batch (gid : Nat) (es : List ParsedEntry) :
    ∀ (acc : JsonObj) (out : List ComposedEmail),
      es.foldl (composeStep gid) (acc, .batch, out) =
        ((mergeFrom (acc, .batch) es).1, .batch, out) := by
  induction es with
  | nil =>
    intro acc out
    rfl
  | cons e es ih =>
    intro acc out
    rcases hc : copy_and_accumulate e.entry.context acc .batch with ⟨acc', m'⟩
    have hb := ca_mode_batch e.entry.context acc .batch rfl
    rw [hc] at hb
    simp only at hb
    subst hb
    have hstep : composeStep gid (acc, .batch, out) e = (acc', .batch, out) := by
      simp only [composeStep, hc]
    have hmerge : mergeFrom (acc, .batch) (e :: es) = mergeFrom (acc', .batch) es := by
      simp only [mergeFrom, List.foldl_cons, hc]
    rw [List.foldl_cons, hstep, ih acc' out, hmerge]

theorem composeFold_single (gid : Nat) (es : List ParsedEntry) :
    ∀ (acc : JsonObj) (out : List ComposedEmail),
      es.foldl (composeStep gid) (acc, .single, out) =
        ((mergeFrom (acc, .single) es).1,
         (if flipCount es acc = es.length then EmailComposeMethod.single
          else EmailComposeMethod.batch),
         out ++ (es.take (flipCount es acc)).map
           (fun e => ⟨gid, e.entry.email, e.entry.context⟩)) := by
  induction es with
  | nil =>
    intro acc out
    simp [mergeFrom, flipCount]
  | cons e es ih =>
    intro acc out
    rcases hc : copy_and_accumulate e.entry.context acc .single with ⟨acc', m'⟩
    have hmerge : mergeFrom (acc, .single) (e :: es) = mergeFrom (acc', m') es := by
      simp only [mergeFrom, List.foldl_cons, hc]
    cases m' with
    | single =>
      have hstep : composeStep gid (acc, .single, out) e =
          (acc', .single, out ++ [⟨gid, e.entry.email, e.entry.context⟩]) := by
        simp only [composeStep, hc]
      have hflip : flipCount (e :: es) acc = flipCount es acc' + 1 := by
        simp only [flipCount, hc]
      rw [List.foldl_cons, hstep, ih acc' _, hmerge, hflip]
      simp [List.take_succ_cons, Nat.succ_inj]
    | batch =>
      have hstep : composeStep gid (acc, .single, out) e = (acc', .batch, out) := by
        simp only [composeStep, hc]
      have hflip : flipCount (e :: es) acc = 0 := by
        simp only [flipCount, hc]
      rw [List.foldl_cons, hstep, composeFold_batch gid es acc' out, hmerge, hflip]
      simp

/-- C1 (amended form): for a non-empty group visited in its given (sorted)
order, composing starts in Single mode; exactly the first `flipCount` entries
(those whose merge into the accumulated context leaves the mode at Single)
each append one ComposedEmail carrying their own header and unmerged context;
from the first entry whose merge switches the mode to Batch onward no
per-entry ComposedEmail is appended; and exactly when some entry switched the
mode (flipCount < group length), one final ComposedEmail is appended carrying
the first entry's header and the fully accumulated context. Emissions made
before the switch remain in the output (non-retroactive). -/
theorem compose_single_batch_semantics (gid : Nat) (first : ParsedEntry)
    (rest : List ParsedEntry) :
    composeGroup gid (first :: rest) =
      some
        (((first :: rest).take (flipCount (first :: rest) first.entry.context)).map
            (fun e => ⟨gid, e.entry.email, e.entry.context⟩) ++
          (if flipCount (first :: rest) first.entry.context = (first :: rest).length
           then []
           else [⟨gid, first.entry.email,
                  (mergeFrom (first.entry.context, .single) (first :: rest)).1⟩])) := by
  simp only [composeGroup]
  rw [composeFold_single gid (first :: rest) first.entry.context []]
  by_cases hk : flipCount (first :: rest) first.entry.context = (first :: rest).length
  · simp only [List.length_cons] at hk
    simp [hk]
  · simp only [List.length_cons] at hk
    simp [hk]

/-- C1 counterexample: a two-entry group in which the second entry's context
contains the accumulation key `+q` at depth 1 (inside the object under `x`),
yet the second entry still appends its own per-entry ComposedEmail and no
batch e-mail is appended: since the accumulated context binds `x` to the
scalar `1` when the second entry is merged, the recursion never reaches `+q`
and the mode stays Single, contradicting the claim that no per-entry
ComposedEmail is appended from the first entry whose context contains an
accumulation key at any depth. -/
theorem compose_single_batch_counterexample :
    plusKey "+q" = some "q" ∧
    lookupJ "x" [("x", Json.obj [("+q", Json.num 5)])] =
      some (Json.obj [("+q", Json.num 5)]) ∧
    composeGroup 7
        [⟨"p1", Option.none, ⟨"e1", 1, [],
            ⟨"sys", "sub", "fr", [], [], [], [], "su", "tp", "al", [], "ck"⟩,
            [("x", Json.num 1)]⟩⟩,
         ⟨"p2", Option.none, ⟨"e2", 2, [],
            ⟨"sys", "sub", "fr", [], [], [], [], "su", "tp", "al", [], "ck"⟩,
            [("x", Json.obj [("+q", Json.num 5)])]⟩⟩] =
      some
        [⟨7, ⟨"sys", "sub", "fr", [], [], [], [], "su", "tp", "al", [], "ck"⟩,
           [("x", Json.num 1)]⟩,
         ⟨7, ⟨"sys", "sub", "fr", [], [], [], [], "su", "tp", "al", [], "ck"⟩,
           [("x", Json.obj [("+q", Json.num 5)])]⟩] := by
  refine ⟨rfl, rfl, ?_⟩
  have h1 : copy_and_accumulate [("x", Json.num 1)] [("x", Json.num 1)]
      .single = ([("x", Json.num 1)], .single) := by
    rw [ca_scalar "x" (Json.num 1) [] [("x", Json.num 1)] .single rfl
      (fun o ho => Json.noConfusion ho)]
    rw [ca_nil]
    rfl
  have h2 : copy_and_accumulate [("x", Json.obj [("+q", Json.num 5)])]
      [("x", Json.num 1)] .single = ([("x", Json.num 1)], .single) := by
    rw [ca_obj_blocked "x" [("+q", Json.num 5)] [] (Json.num 1)
      [("x", Json.num 1)] .single rfl rfl (fun o ho => Json.noConfusion ho)]
    rw [ca_nil]
  simp only [composeGroup, List.foldl_cons, List.foldl_nil, composeStep, h1, h2]
  rfl

/-- C2 (amended form): for any source binding under a `+`-prefixed key, the
merge step switches the mode to Batch, removes the prefixed key itself from
the target, and then resolves the bare key as follows: when the bare key is
absent a fresh one-element accumulated collection is created; when it holds
an array the AccumulatedItem is appended; but when it holds any other
(ordinary, non-accumulated) value, that value is left in place and the item
is not appended — the pre-existing ordinary value wins, not the
accumulation. -/
theorem accumulate_bare_key_resolution (k bare : String) (v : Json)
    (t : JsonObj) (m : EmailComposeMethod) (h : plusKey k = some bare) :
    (copy_and_accumulate [(k, v)] t m).2 = EmailComposeMethod.batch ∧
    lookupJ bare (copy_and_accumulate [(k, v)] t m).1 =
      (match lookupJ bare (eraseJ k t) with
       | Option.none => some (Json.arr [accItem 1 v])
       | some (.arr l) => some (Json.arr (l ++ [accItem (l.length + 1) v]))
       | some w => some w) := by
  rw [ca_plus k bare v [] t m h, ca_nil]
  refine ⟨rfl, ?_⟩
  cases hlk : lookupJ bare (eraseJ k t) with
  | none => rw [accTarget_lookup_fresh bare v _ hlk]
  | some w =>
    cases w with
    | arr l => rw [accTarget_lookup_arr bare v l _ hlk]
    | null =>
      rw [accTarget_lookup_blocked bare v _ _ hlk (fun l hl => Json.noConfusion hl)]
    | bool b =>
      rw [accTarget_lookup_blocked bare v _ _ hlk (fun l hl => Json.noConfusion hl)]
    | num n =>
      rw [accTarget_lookup_blocked bare v _ _ hlk (fun l hl => Json.noConfusion hl)]
    | str s =>
      rw [accTarget_lookup_blocked bare v _ _ hlk (fun l hl => Json.noConfusion hl)]
    | obj o =>
      rw [accTarget_lookup_blocked bare v _ _ hlk (fun l hl => Json.noConfusion hl)]

/-- C2 witness: the amended statement evaluated at the accumulation key `+a`
with value `1` merged into a target holding an array under `a`. -/
theorem accumulate_bare_key_resolution_witness :
    (copy_and_accumulate [("+a", Json.num 1)]
      [("a", Json.arr [])] EmailComposeMethod.single).2 = EmailComposeMethod.batch ∧
    lookupJ "a" (copy_and_accumulate [("+a", Json.num 1)]
        [("a", Json.arr [])] EmailComposeMethod.single).1 =
      (match lookupJ "a" (eraseJ "+a" [("a", Json.arr [])]) with
       | Option.none => some (Json.arr [accItem 1 (Json.num 1)])
       | some (.arr l) => some (Json.arr (l ++ [accItem (l.length + 1) (Json.num 1)]))
       | some w => some w) :=
  accumulate_bare_key_resolution "+a" "a" (Json.num 1)
    [("a", Json.arr [])] EmailComposeMethod.single rfl

/-- C2 counterexample: merging the source `\x7b"+a": 1\x7d` into a target
already holding the ordinary value `0` at the bare key `a` leaves `a` bound
to `0`: the pre-existing non-accumulated value is not removed and the
AccumulatedItem is not appended, so after the merge the bare key does not
hold the accumulated collection, contradicting "accumulation always wins". -/
theorem accumulate_bare_key_counterexample :
    copy_and_accumulate [("+a", Json.num 1)] [("a", Json.num 0)]
        EmailComposeMethod.single =
      ([("a", Json.num 0)], EmailComposeMethod.batch) ∧
    lookupJ "a" (copy_and_accumulate [("+a", Json.num 1)] [("a", Json.num 0)]
        EmailComposeMethod.single).1 = some (Json.num 0) ∧
    some (Json.num 0) ≠ some (Json.arr [accItem 1 (Json.num 1)]) := by
  have hcopy : copy_and_accumulate [("+a", Json.num 1)] [("a", Json.num 0)]
      EmailComposeMethod.single = ([("a", Json.num 0)], EmailComposeMethod.batch) := by
    rw [ca_plus "+a" "a" (Json.num 1) [] [("a", Json.num 0)]
      EmailComposeMethod.single rfl, ca_nil]
    rfl
  refine ⟨hcopy, ?_, fun hh => Json.noConfusion (Option.some.inj hh)⟩
  rw [hcopy]
  rfl

/-- C10: every AccumulatedItem appended by the `+`-key merge step is a JSON
object with exactly the three fields `order`, `checksum` and `value` (in that
order), where `checksum` is the lowercase hexadecimal rendering of the
CRC-32/ISO-HDLC checksum of the compact JSON serialization of the
accumulated value — covering both the creation of a fresh collection and the
append to an existing one. -/
theorem accumulated_item_three_fields (k bare : String) (v : Json)
    (t : JsonObj) (m : EmailComposeMethod) (h : plusKey k = some bare) :
    lookupJ bare (copy_and_accumulate [(k, v)] t m).1 =
      (match lookupJ bare (eraseJ k t) with
       | Option.none =>
         some (Json.arr
           [Json.obj [("order", Json.num (Int.ofNat 1)),
                      ("checksum", Json.str (toHexLower (crc32_iso_hdlc_checksum
                         (utf8Bytes (toCompact v))))),
                      ("value", v)]])
       | some (.arr l) =>
         some (Json.arr (l ++
           [Json.obj [("order", Json.num (Int.ofNat (l.length + 1))),
                      ("checksum", Json.str (toHexLower (crc32_iso_hdlc_checksum
                         (utf8Bytes (toCompact v))))),
                      ("value", v)]]))
       | some w => some w) := by
  rw [ca_plus k bare v [] t m h, ca_nil]
  cases hlk : lookupJ bare (eraseJ k t) with
  | none =>
    rw [accTarget_lookup_fresh bare v _ hlk]
    rfl
  | some w =>
    cases w with
    | arr l =>
      rw [accTarget_lookup_arr bare v l _ hlk]
      rfl
    | null =>
      rw [accTarget_lookup_blocked bare v _ _ hlk (fun l hl => Json.noConfusion hl)]
    | bool b =>
      rw [accTarget_lookup_blocked bare v _ _ hlk (fun l hl => Json.noConfusion hl)]
    | num n =>
      rw [accTarget_lookup_blocked bare v _ _ hlk (fun l hl => Json.noConfusion hl)]
    | str s =>
      rw [accTarget_lookup_blocked bare v _ _ hlk (fun l hl => Json.noConfusion hl)]
    | obj o =>
      rw [accTarget_lookup_blocked bare v _ _ hlk (fun l hl => Json.noConfusion hl)]

/-- C10 witness: the item shape evaluated for the value `\x7b"id": 1\x7d`
accumulated under `+rows` into an empty target. -/
theorem accumulated_item_three_fields_witness :
    lookupJ "rows" (copy_and_accumulate
        [("+rows", Json.obj [("id", Json.num 1)])] []
        EmailComposeMethod.single).1 =
      (match lookupJ "rows" (eraseJ "+rows" ([] : JsonObj)) with
       | Option.none =>
         some (Json.arr
           [Json.obj [("order", Json.num (Int.ofNat 1)),
                      ("checksum", Json.str (toHexLower (crc32_iso_hdlc_checksum
                         (utf8Bytes (toCompact (Json.obj [("id", Json.num 1)])))))),
                      ("value", Json.obj [("id", Json.num 1)])]])
       | some (.arr l) =>
         some (Json.arr (l ++
           [Json.obj [("order", Json.num (Int.ofNat (l.length + 1))),
                      ("checksum", Json.str (toHexLower (crc32_iso_hdlc_checksum
                         (utf8Bytes (toCompact (Json.obj [("id", Json.num 1)])))))),
                      ("value", Json.obj [("id", Json.num 1)])]]))
       | some w => some w) :=
  accumulated_item_three_fields "+rows" "rows" (Json.obj [("id", Json.num 1)])
    [] EmailComposeMethod.single rfl

/-- C4: for an ordinary key (no `+` marker, value not a nested object) the
merge writes the source value only when the key is absent in the target and
leaves the target completely unchanged when the key is already bound
(first-write-wins); merging the same binding twice changes nothing after the
first write; and merging `\x7b"a":1\x7d` then `\x7b"a":2\x7d` yields
`\x7b"a":1\x7d`. -/
theorem ordinary_key_first_write_wins (k : String) (v : Json) (t : JsonObj)
    (m : EmailComposeMethod) (h : plusKey k = Option.none)
    (h2 : ∀ o, v ≠ Json.obj o) :
    copy_and_accumulate [(k, v)] t m =
      ((match lookupJ k t with
        | some _ => t
        | Option.none => t ++ [(k, v)]), m) ∧
    (copy_and_accumulate [(k, v)] (copy_and_accumulate [(k, v)] t m).1 m).1 =
      (copy_and_accumulate [(k, v)] t m).1 ∧
    (copy_and_accumulate [("a", Json.num 2)]
        (copy_and_accumulate [("a", Json.num 1)] [("a", Json.num 1)]
          EmailComposeMethod.single).1
        EmailComposeMethod.single).1 = [("a", Json.num 1)] := by
  have hstep : ∀ (u : JsonObj) (m' : EmailComposeMethod),
      copy_and_accumulate [(k, v)] u m' = (insertAbsent k v u, m') := by
    intro u m'
    rw [ca_scalar k v [] u m' h h2, ca_nil]
  refine ⟨?_, ?_, ?_⟩
  · rw [hstep t m]
    rfl
  · rw [hstep t m]
    rw [hstep (insertAbsent k v t) m]
    exact insertAbsent_idem k v t
  · have ha : plusKey "a" = Option.none := rfl
    have hno : ∀ o, Json.num 1 ≠ Json.obj o := fun o ho => Json.noConfusion ho
    have hno2 : ∀ o, Json.num 2 ≠ Json.obj o := fun o ho => Json.noConfusion ho
    rw [ca_scalar "a" (Json.num 1) [] [("a", Json.num 1)]
      EmailComposeMethod.single ha hno, ca_nil]
    rw [ca_scalar "a" (Json.num 2) [] _ EmailComposeMethod.single ha hno2, ca_nil]
    rfl

/-- C4 witness: first-write-wins evaluated at the key `b` with value `3` and
a target already holding `b`. -/
theorem ordinary_key_first_write_wins_witness :
    copy_and_accumulate [("b", Json.num 3)] [("b", Json.num 7)]
        EmailComposeMethod.single =
      ((match lookupJ "b" [("b", Json.num 7)] with
        | some _ => [("b", Json.num 7)]
        | Option.none => [("b", Json.num 7)] ++ [("b", Json.num 3)]),
       EmailComposeMethod.single) ∧
    (copy_and_accumulate [("b", Json.num 3)]
        (copy_and_accumulate [("b", Json.num 3)] [("b", Json.num 7)]
          EmailComposeMethod.single).1 EmailComposeMethod.single).1 =
      (copy_and_accumulate [("b", Json.num 3)] [("b", Json.num 7)]
        EmailComposeMethod.single).1 ∧
    (copy_and_accumulate [("a", Json.num 2)]
        (copy_and_accumulate [("a", Json.num 1)] [("a", Json.num 1)]
          EmailComposeMethod.single).1
        EmailComposeMethod.single).1 = [("a", Json.num 1)] :=
  ordinary_key_first_write_wins "b" (Json.num 3) [("b", Json.num 7)]
    EmailComposeMethod.single rfl (fun o ho => Json.noConfusion ho)


/-! Accumulation of a distinguished `+items` key across a group. -/

theorem lookupGroup_insert_eq (m : List (Nat × List ParsedEntry)) (gid : Nat)
    (e : ParsedEntry) :
    lookupGroup gid (insertEntryGroup m gid e) =
      some ((lookupGroup gid m).getD [] ++ [e]) := by
  induction m with
  | nil => simp [insertEntryGroup, lookupGroup]
  | cons p rest ih =>
    obtain ⟨k, g⟩ := p
    by_cases hk : k = gid
    · subst hk
      simp [insertEntryGroup, lookupGroup]
    · simp [insertEntryGroup, hk, lookupGroup, ih]

theorem lookupGroup_insert_ne (m : List (Nat × List ParsedEntry))
    (gid gid' : Nat) (e : ParsedEntry) (h : gid ≠ gid') :
    lookupGroup gid (insertEntryGroup m gid' e) = lookupGroup gid m := by
  induction m with
  | nil => simp [insertEntryGroup, lookupGroup, Ne.symm h]
  | cons p rest ih =>
    obtain ⟨k, g⟩ := p
    by_cases hk : k = gid'
    · subst hk
      simp [insertEntryGroup, lookupGroup, Ne.symm h]
    · by_cases hq : k = gid
      · simp [insertEntryGroup, hk, lookupGroup, hq, h]
      · simp [insertEntryGroup, hk, lookupGroup, hq, ih]

theorem groupPhase_lookup (pool : List ParsedEntry) (gid : Nat) :
    ∀ m : List (Nat × List ParsedEntry),
      lookupGroup gid
          (pool.foldl (fun m e => insertEntryGroup m (email_id e) e) m) =
        match lookupGroup gid m with
        | some g => some (g ++ pool.filter (fun e => email_id e == gid))
        | Option.none =>
          if (pool.filter (fun e => email_id e == gid)).isEmpty then Option.none
          else some (pool.filter (fun e => email_id e == gid)) := by
  induction pool with
  | nil =>
    intro m
    cases hm : lookupGroup gid m <;> simp [hm]
  | cons e pool ih =>
    intro m
    rw [List.foldl_cons]
    rw [ih (insertEntryGroup m (email_id e) e)]
    by_cases he : email_id e = gid
    · have hfe : (email_id e == gid) = true := by simp [he]
      rw [← he, lookupGroup_insert_eq m (email_id e) e]
      cases hm : lookupGroup (email_id e) m with
      | some g => simp [List.filter_cons, hfe, he]
      | none => simp [List.filter_cons, hfe, he]
    · have hfe : (email_id e == gid) = false := by simp [he]
      rw [lookupGroup_insert_ne m gid (email_id e) e (fun hq => he hq.symm)]
      cases hm : lookupGroup gid m with
      | some g => simp [List.filter_cons, hfe]
      | none => simp [List.filter_cons, hfe]

theorem lookupGroup_map_sort (m : List (Nat × List ParsedEntry)) (gid : Nat) :
    lookupGroup gid (m.map (fun g => (g.1, sortByUtc g.2))) =
      (lookupGroup gid m).map sortByUtc := by
  induction m with
  | nil => rfl
  | cons p rest ih =>
    obtain ⟨k, g⟩ := p
    by_cases hk : k = gid
    · simp [lookupGroup, hk]
    · simp [lookupGroup, hk, ih]

theorem map_emails_lookup (pool : List ParsedEntry) (gid : Nat) :
    lookupGroup gid (map_emails pool) =
      if (pool.filter (fun e => email_id e == gid)).isEmpty then Option.none
      else some (sortByUtc (pool.filter (fun e => email_id e == gid))) := by
  unfold map_emails
  rw [lookupGroup_map_sort, groupPhase_lookup pool gid []]
  simp only [lookupGroup]
  by_cases hf : (pool.filter (fun e => email_id e == gid)).isEmpty
  · simp [hf]
  · simp [hf]

/-! Sortedness and stability of `sortByUtc`. -/

theorem mem_orderedInsertUtc (a e : ParsedEntry) (l : List ParsedEntry) :
    a ∈ orderedInsertUtc e l ↔ a = e ∨ a ∈ l := by
  induction l with
  | nil => simp [orderedInsertUtc]
  | cons x xs ih =>
    by_cases hle : e.entry.utc ≤ x.entry.utc
    · simp [orderedInsertUtc, hle]
    · simp [orderedInsertUtc, hle, ih]
      tauto

theorem orderedInsertUtc_pairwise (e : ParsedEntry) (l : List ParsedEntry)
    (h : List.Pairwise (fun a b => a.entry.utc ≤ b.entry.utc) l) :
    List.Pairwise (fun a b => a.entry.utc ≤ b.entry.utc) (orderedInsertUtc e l) := by
  induction l with
  | nil => simp [orderedInsertUtc]
  | cons x xs ih =>
    rcases List.pairwise_cons.mp h with ⟨hx, hxs⟩
    by_cases hle : e.entry.utc ≤ x.entry.utc
    · simp only [orderedInsertUtc, if_pos hle]
      refine List.Pairwise.cons ?_ h
      intro b hb
      rcases List.mem_cons.mp hb with hbx | hbxs
      · rw [hbx]
        exact hle
      · exact le_trans hle (hx b hbxs)
    · simp only [orderedInsertUtc, if_neg hle]
      refine List.Pairwise.cons ?_ (ih hxs)
      intro b hb
      rcases (mem_orderedInsertUtc b e xs).mp hb with hbe | hbxs
      · rw [hbe]
        exact le_of_not_le hle
      · exact hx b hbxs

theorem sortByUtc_sorted (l : List ParsedEntry) :
    List.Pairwise (fun a b => a.entry.utc ≤ b.entry.utc) (sortByUtc l) := by
  induction l with
  | nil => simp [sortByUtc]
  | cons x xs ih => exact orderedInsertUtc_pairwise x (sortByUtc xs) ih

theorem filter_orderedInsertUtc_eq (e : ParsedEntry) (l : List ParsedEntry)
    (t : Int) (he : e.entry.utc = t) :
    (orderedInsertUtc e l).filter (fun a => a.entry.utc == t) =
      e :: l.filter (fun a => a.entry.utc == t) := by
  induction l with
  | nil => simp [orderedInsertUtc, List.filter_cons, he]
  | cons x xs ih =>
    by_cases hle : e.entry.utc ≤ x.entry.utc
    · simp only [orderedInsertUtc, if_pos hle]
      simp [List.filter_cons, he]
    · have hlt : x.entry.utc < e.entry.utc := lt_of_not_le hle
      have hxt : (x.entry.utc == t) = false := by
        rw [beq_eq_false_iff_ne]
        omega
      simp only [orderedInsertUtc, if_neg hle]
      simp [List.filter_cons, hxt, ih]

theorem filter_orderedInsertUtc_ne (e : ParsedEntry) (l : List ParsedEntry)
    (t : Int) (he : ¬ e.entry.utc = t) :
    (orderedInsertUtc e l).filter (fun a => a.entry.utc == t) =
      l.filter (fun a => a.entry.utc == t) := by
  induction l with
  | nil => simp [orderedInsertUtc, List.filter_cons, he]
  | cons x xs ih =>
    by_cases hle : e.entry.utc ≤ x.entry.utc
    · simp [orderedInsertUtc, hle, List.filter_cons, he]
    · simp [orderedInsertUtc, hle, List.filter_cons, ih]

theorem sortByUtc_filter_utc (l : List ParsedEntry) (t : Int) :
    (sortByUtc l).filter (fun a => a.entry.utc == t) =
      l.filter (fun a => a.entry.utc == t) := by
  induction l with
  | nil => rfl
  | cons x xs ih =>
    by_cases hx : x.entry.utc = t
    · rw [sortByUtc, filter_orderedInsertUtc_eq x (sortByUtc xs) t hx, ih]
      simp [List.filter_cons, hx]
    · rw [sortByUtc, filter_orderedInsertUtc_ne x (sortByUtc xs) t hx, ih]
      simp [List.filter_cons, hx]

/-- C5: map_emails partitions the entry pool into groups keyed by the CRC-32
identity of the serialized header: the group found under identity `gid` is
exactly the stable ascending-by-`utc` sort of the pool entries whose
`email_id` is `gid` (in arrival order); the group is ascending by timestamp,
and for any timestamp `t` the group's entries at `t` appear exactly in their
arrival order (stability). -/
theorem map_emails_grouping (pool : List ParsedEntry) (gid : Nat)
    (g : List ParsedEntry) (t : Int)
    (h : lookupGroup gid (map_emails pool) = some g) :
    g = sortByUtc (pool.filter (fun e => email_id e == gid)) ∧
    List.Pairwise (fun a b => a.entry.utc ≤ b.entry.utc) g ∧
    g.filter (fun e => e.entry.utc == t) =
      (pool.filter (fun e => email_id e == gid)).filter
        (fun e => e.entry.utc == t) := by
  rw [map_emails_lookup pool gid] at h
  by_cases hf : (pool.filter (fun e => email_id e == gid)).isEmpty
  · rw [if_pos hf] at h
    exact Option.noConfusion h
  · rw [if_neg hf] at h
    have hg : g = sortByUtc (pool.filter (fun e => email_id e == gid)) :=
      (Option.some.inj h).symm
    refine ⟨hg, ?_, ?_⟩
    · rw [hg]
      exact sortByUtc_sorted _
    · rw [hg]
      exact sortByUtc_filter_utc _ t

/-- C5 witness: a pool of two entries sharing one header, arriving with
timestamps 2 then 1: the group under their common identity is the stable
ascending sort of the pool. -/
theorem map_emails_grouping_witness :
    ([⟨"f2", Option.none, ⟨"e2", 1, [],
        ⟨"s", "ss", "f", [], [], [], [], "su", "tp", "al", [], "ck"⟩, []⟩⟩,
      ⟨"f1", Option.none, ⟨"e1", 2, [],
        ⟨"s", "ss", "f", [], [], [], [], "su", "tp", "al", [], "ck"⟩, []⟩⟩]
        : List ParsedEntry) =
      sortByUtc (([⟨"f1", Option.none, ⟨"e1", 2, [],
          ⟨"s", "ss", "f", [], [], [], [], "su", "tp", "al", [], "ck"⟩, []⟩⟩,
        ⟨"f2", Option.none, ⟨"e2", 1, [],
          ⟨"s", "ss", "f", [], [], [], [], "su", "tp", "al", [], "ck"⟩, []⟩⟩]
          : List ParsedEntry).filter
        (fun e => email_id e ==
          email_id ⟨"f1", Option.none, ⟨"e1", 2, [],
            ⟨"s", "ss", "f", [], [], [], [], "su", "tp", "al", [], "ck"⟩, []⟩⟩)) ∧
    List.Pairwise (fun a b => a.entry.utc ≤ b.entry.utc)
      ([⟨"f2", Option.none, ⟨"e2", 1, [],
          ⟨"s", "ss", "f", [], [], [], [], "su", "tp", "al", [], "ck"⟩, []⟩⟩,
        ⟨"f1", Option.none, ⟨"e1", 2, [],
          ⟨"s", "ss", "f", [], [], [], [], "su", "tp", "al", [], "ck"⟩, []⟩⟩]
          : List ParsedEntry) ∧
    (([⟨"f2", Option.none, ⟨"e2", 1, [],
          ⟨"s", "ss", "f", [], [], [], [], "su", "tp", "al", [], "ck"⟩, []⟩⟩,
       ⟨"f1", Option.none, ⟨"e1", 2, [],
          ⟨"s", "ss", "f", [], [], [], [], "su", "tp", "al", [], "ck"⟩, []⟩⟩]
          : List ParsedEntry).filter (fun e => e.entry.utc == (1 : Int))) =
      ((([⟨"f1", Option.none, ⟨"e1", 2, [],
            ⟨"s", "ss", "f", [], [], [], [], "su", "tp", "al", [], "ck"⟩, []⟩⟩,
          ⟨"f2", Option.none, ⟨"e2", 1, [],
            ⟨"s", "ss", "f", [], [], [], [], "su", "tp", "al", [], "ck"⟩, []⟩⟩]
            : List ParsedEntry).filter
          (fun e => email_id e ==
            email_id ⟨"f1", Option.none, ⟨"e1", 2, [],
              ⟨"s", "ss", "f", [], [], [], [], "su", "tp", "al", [], "ck"⟩, []⟩⟩)).filter
        (fun e => e.entry.utc == (1 : Int))) :=
  map_emails_grouping
    [⟨"f1", Option.none, ⟨"e1", 2, [],
        ⟨"s", "ss", "f", [], [], [], [], "su", "tp", "al", [], "ck"⟩, []⟩⟩,
     ⟨"f2", Option.none, ⟨"e2", 1, [],
        ⟨"s", "ss", "f", [], [], [], [], "su", "tp", "al", [], "ck"⟩, []⟩⟩]
    (email_id ⟨"f1", Option.none, ⟨"e1", 2, [],
        ⟨"s", "ss", "f", [], [], [], [], "su", "tp", "al", [], "ck"⟩, []⟩⟩)
    [⟨"f2", Option.none, ⟨"e2", 1, [],
        ⟨"s", "ss", "f", [], [], [], [], "su", "tp", "al", [], "ck"⟩, []⟩⟩,
     ⟨"f1", Option.none, ⟨"e1", 2, [],
        ⟨"s", "ss", "f", [], [], [], [], "su", "tp", "al", [], "ck"⟩, []⟩⟩]
    1
    (by
      rw [map_emails_lookup]
      have hfilt : ([⟨"f1", Option.none, ⟨"e1", 2, [],
            ⟨"s", "ss", "f", [], [], [], [], "su", "tp", "al", [], "ck"⟩, []⟩⟩,
          ⟨"f2", Option.none, ⟨"e2", 1, [],
            ⟨"s", "ss", "f", [], [], [], [], "su", "tp", "al", [], "ck"⟩, []⟩⟩]
            : List ParsedEntry).filter
          (fun e => email_id e ==
            email_id ⟨"f1", Option.none, ⟨"e1", 2, [],
              ⟨"s", "ss", "f", [], [], [], [], "su", "tp", "al", [], "ck"⟩, []⟩⟩) =
          [⟨"f1", Option.none, ⟨"e1", 2, [],
            ⟨"s", "ss", "f", [], [], [], [], "su", "tp", "al", [], "ck"⟩, []⟩⟩,
           ⟨"f2", Option.none, ⟨"e2", 1, [],
            ⟨"s", "ss", "f", [], [], [], [], "su", "tp", "al", [], "ck"⟩, []⟩⟩] := by
        simp [List.filter_cons, email_id]
      rw [hfilt]
      have hsort : sortByUtc
          [⟨"f1", Option.none, ⟨"e1", 2, [],
            ⟨"s", "ss", "f", [], [], [], [], "su", "tp", "al", [], "ck"⟩, []⟩⟩,
           ⟨"f2", Option.none, ⟨"e2", 1, [],
            ⟨"s", "ss", "f", [], [], [], [], "su", "tp", "al", [], "ck"⟩, []⟩⟩] =
          [⟨"f2", Option.none, ⟨"e2", 1, [],
            ⟨"s", "ss", "f", [], [], [], [], "su", "tp", "al", [], "ck"⟩, []⟩⟩,
           ⟨"f1", Option.none, ⟨"e1", 2, [],
            ⟨"s", "ss", "f", [], [], [], [], "su", "tp", "al", [], "ck"⟩, []⟩⟩] := by
        show orderedInsertUtc _ (orderedInsertUtc _ (sortByUtc [])) = _
        rw [sortByUtc]
        rw [orderedInsertUtc]
        rw [orderedInsertUtc]
        norm_num
        rfl
      rw [hsort]
      rfl)



/-! Non-emptiness of groups and totality of `compose_emails`. -/

theorem insertEntryGroup_nonempty (m : List (Nat × List ParsedEntry))
    (gid : Nat) (e : ParsedEntry)
    (h : ∀ g ∈ m, g.2 ≠ []) :
    ∀ g ∈ insertEntryGroup m gid e, g.2 ≠ [] := by
  induction m with
  | nil =>
    intro g hg
    rw [insertEntryGroup] at hg
    rcases List.mem_singleton.mp hg with hg'
    rw [hg']
    simp
  | cons p rest ih =>
    obtain ⟨k, gr⟩ := p
    intro g hg
    by_cases hk : k = gid
    · rw [insertEntryGroup, if_pos hk] at hg
      rcases List.mem_cons.mp hg with hg' | hg'
      · rw [hg']
        simp
      · exact h g (List.mem_cons_of_mem _ hg')
    · rw [insertEntryGroup, if_neg hk] at hg
      rcases List.mem_cons.mp hg with hg' | hg'
      · rw [hg']
        exact h (k, gr) (List.mem_cons_self _ _)
      · exact ih (fun g' hg'' => h g' (List.mem_cons_of_mem _ hg'')) g hg'

theorem groupPhase_nonempty (pool : List ParsedEntry) :
    ∀ m : List (Nat × List ParsedEntry),
      (∀ g ∈ m, g.2 ≠ []) →
      ∀ g ∈ pool.foldl (fun m e => insertEntryGroup m (email_id e) e) m,
        g.2 ≠ [] := by
  induction pool with
  | nil =>
    intro m h
    exact h
  | cons e pool ih =>
    intro m h
    rw [List.foldl_cons]
    exact ih _ (insertEntryGroup_nonempty m (email_id e) e h)

theorem orderedInsertUtc_ne_nil (e : ParsedEntry) (l : List ParsedEntry) :
    orderedInsertUtc e l ≠ [] := by
  cases l with
  | nil => simp [orderedInsertUtc]
  | cons x xs =>
    rw [orderedInsertUtc]
    split <;> simp

theorem sortByUtc_ne_nil (l : List ParsedEntry) (h : l ≠ []) :
    sortByUtc l ≠ [] := by
  cases l with
  | nil => exact absurd rfl h
  | cons x xs =>
    rw [sortByUtc]
    exact orderedInsertUtc_ne_nil x (sortByUtc xs)

theorem composeGroup_isSome (gid : Nat) (es : List ParsedEntry) (h : es ≠ []) :
    (composeGroup gid es).isSome = true := by
  cases es with
  | nil => exact absurd rfl h
  | cons e es => rfl

theorem compose_emails_isSome (gs : List (Nat × List ParsedEntry))
    (h : ∀ g ∈ gs, g.2 ≠ []) :
    (compose_emails gs).isSome = true := by
  induction gs with
  | nil => rfl
  | cons g gs ih =>
    obtain ⟨gid, es⟩ := g
    have hg : es ≠ [] := h (gid, es) (List.mem_cons_self _ _)
    have hrest := ih (fun g' hg' => h g' (List.mem_cons_of_mem _ hg'))
    rw [compose_emails]
    rcases Option.isSome_iff_exists.mp (composeGroup_isSome gid es hg) with ⟨out, hout⟩
    rcases Option.isSome_iff_exists.mp hrest with ⟨outs, houts⟩
    rw [hout, houts]
    rfl

/-- C6: every group built by map_emails is non-empty (groups are only created
together with their first entry, and sorting preserves non-emptiness), so
compose_emails applied to the output of map_emails never reaches the
empty-group error branch — the `expect` on the group's first element is
unreachable and the composition is total. -/
theorem map_emails_groups_nonempty (pool : List ParsedEntry) :
    ((map_emails pool).all (fun g => !g.2.isEmpty)) = true ∧
    (compose_emails (map_emails pool)).isSome = true := by
  have hne : ∀ g ∈ map_emails pool, g.2 ≠ [] := by
    intro g hg
    unfold map_emails at hg
    rcases List.mem_map.mp hg with ⟨g', hg', hmap⟩
    have hg'ne : g'.2 ≠ [] :=
      groupPhase_nonempty pool [] (by simp) g' hg'
    rw [← hmap]
    exact sortByUtc_ne_nil g'.2 hg'ne
  constructor
  · rw [List.all_eq_true]
    intro g hg
    have := hne g hg
    cases hgg : g.2 with
    | nil => exact absurd hgg this
    | cons x xs => simp [hgg]
  · exact compose_emails_isSome (map_emails pool) hne



/-! Engine auto-detection and rendering. -/

theorem template_from_data_fallthrough (c e : String)
    (h1 : e ≠ "tera") (h2 : e ≠ "hbs") (h3 : e ≠ "liq") :
    template_from_data ⟨c, some (some e)⟩ = template_from_str c := by
  simp only [template_from_data]

/-- C7: engine selection precedence. A recognized extension (`tera`, `hbs`,
`liq`) selects its engine for any template text (the text is not inspected:
the selected variant carries the contents unchanged and does not depend on
them); an unrecognized or absent extension (or absent path) falls through to
the marker scan of the text; a text without marker selects NoEngine; and a
forced engine ignores both the extension and the text. -/
theorem engine_detection_precedence (c1 c2 e : String)
    (fe : Option (Option String))
    (h1 : e ≠ "tera") (h2 : e ≠ "hbs") (h3 : e ≠ "liq")
    (h4 : findMarker c2 = Option.none) :
    template_from_data ⟨c1, some (some "tera")⟩ = Template.tera c1 ∧
    template_from_data ⟨c1, some (some "hbs")⟩ = Template.handlebars c1 ∧
    template_from_data ⟨c1, some (some "liq")⟩ = Template.liquid c1 ∧
    template_from_data ⟨c1, some (some e)⟩ = template_from_str c1 ∧
    template_from_data ⟨c1, some Option.none⟩ = template_from_str c1 ∧
    template_from_data ⟨c1, Option.none⟩ = template_from_str c1 ∧
    template_from_str c2 = Template.noEngine c2 ∧
    template_from_data ⟨c2, Option.none⟩ = Template.noEngine c2 ∧
    selectTemplate ⟨c1, fe⟩ (DetectionMethod.force TemplateEngine.tera) =
      Template.tera c1 ∧
    selectTemplate ⟨c1, fe⟩ (DetectionMethod.force TemplateEngine.handlebars) =
      Template.handlebars c1 ∧
    selectTemplate ⟨c1, fe⟩ (DetectionMethod.force TemplateEngine.liquid) =
      Template.liquid c1 ∧
    selectTemplate ⟨c1, fe⟩ (DetectionMethod.force TemplateEngine.none) =
      Template.noEngine c1 := by
  have hstr : template_from_str c2 = Template.noEngine c2 := by
    rw [template_from_str, h4]
  exact ⟨rfl, rfl, rfl, template_from_data_fallthrough c1 e h1 h2 h3, rfl, rfl,
    hstr, hstr, rfl, rfl, rfl, rfl⟩

/-- C7 witness: the precedence statement evaluated at a text whose marker
names tera (showing the extension wins over it), a marker-free text, the
unrecognized extension `txt`, and a present (recognized) extension in forced
mode. -/
theorem engine_detection_precedence_witness :
    template_from_data ⟨"<!--template tera-->x", some (some "tera")⟩ =
      Template.tera "<!--template tera-->x" ∧
    template_from_data ⟨"<!--template tera-->x", some (some "hbs")⟩ =
      Template.handlebars "<!--template tera-->x" ∧
    template_from_data ⟨"<!--template tera-->x", some (some "liq")⟩ =
      Template.liquid "<!--template tera-->x" ∧
    template_from_data ⟨"<!--template tera-->x", some (some "txt")⟩ =
      template_from_str "<!--template tera-->x" ∧
    template_from_data ⟨"<!--template tera-->x", some Option.none⟩ =
      template_from_str "<!--template tera-->x" ∧
    template_from_data ⟨"<!--template tera-->x", Option.none⟩ =
      template_from_str "<!--template tera-->x" ∧
    template_from_str "plain text" = Template.noEngine "plain text" ∧
    template_from_data ⟨"plain text", Option.none⟩ =
      Template.noEngine "plain text" ∧
    selectTemplate ⟨"<!--template tera-->x", some (some "liq")⟩
        (DetectionMethod.force TemplateEngine.tera) =
      Template.tera "<!--template tera-->x" ∧
    selectTemplate ⟨"<!--template tera-->x", some (some "liq")⟩
        (DetectionMethod.force TemplateEngine.handlebars) =
      Template.handlebars "<!--template tera-->x" ∧
    selectTemplate ⟨"<!--template tera-->x", some (some "liq")⟩
        (DetectionMethod.force TemplateEngine.liquid) =
      Template.liquid "<!--template tera-->x" ∧
    selectTemplate ⟨"<!--template tera-->x", some (some "liq")⟩
        (DetectionMethod.force TemplateEngine.none) =
      Template.noEngine "<!--template tera-->x" :=
  engine_detection_precedence "<!--template tera-->x" "plain text" "txt"
    (some (some "liq")) (by decide) (by decide) (by decide) (by rfl)

/-- C8: when the marker scan selects an engine name outside the closed set,
render returns the structured "Unknown template engine" error naming that
engine, without any library invocation — the failure is an `Except.error`
value of this render call only, not a process abort. -/
theorem unknown_engine_render_error (contents name stripped : String)
    (ctx : Json) (h : template_from_str contents = Template.unknown name stripped) :
    render ⟨contents, Option.none⟩ ctx DetectionMethod.auto =
      Except.error ("Unknown template engine: `" ++ name ++ "`") ∧
    render ⟨contents, some Option.none⟩ ctx DetectionMethod.auto =
      Except.error ("Unknown template engine: `" ++ name ++ "`") := by
  constructor
  · show (match selectTemplate ⟨contents, Option.none⟩ DetectionMethod.auto with
      | Template.tera c => Except.ok (RenderResult.engineInvocation "tera" c ctx)
      | Template.handlebars c => Except.ok (RenderResult.engineInvocation "handlebars" c ctx)
      | Template.liquid c => Except.ok (RenderResult.engineInvocation "liquid" c ctx)
      | Template.unknown engine _ => Except.error ("Unknown template engine: `" ++ engine ++ "`")
      | Template.noEngine raw => Except.ok (RenderResult.output raw)) = _
    rw [show selectTemplate ⟨contents, Option.none⟩ DetectionMethod.auto =
        Template.unknown name stripped from h]
  · show (match selectTemplate ⟨contents, some Option.none⟩ DetectionMethod.auto with
      | Template.tera c => Except.ok (RenderResult.engineInvocation "tera" c ctx)
      | Template.handlebars c => Except.ok (RenderResult.engineInvocation "handlebars" c ctx)
      | Template.liquid c => Except.ok (RenderResult.engineInvocation "liquid" c ctx)
      | Template.unknown engine _ => Except.error ("Unknown template engine: `" ++ engine ++ "`")
      | Template.noEngine raw => Except.ok (RenderResult.output raw)) = _
    rw [show selectTemplate ⟨contents, some Option.none⟩ DetectionMethod.auto =
        Template.unknown name stripped from h]

/-- C8 witness: a template whose marker names the unrecognized engine `foo`
fails with the structured error naming `foo`. -/
theorem unknown_engine_render_error_witness :
    render ⟨"<!--template foo-->x", Option.none⟩ Json.null DetectionMethod.auto =
      Except.error ("Unknown template engine: `" ++ "foo" ++ "`") ∧
    render ⟨"<!--template foo-->x", some Option.none⟩ Json.null DetectionMethod.auto =
      Except.error ("Unknown template engine: `" ++ "foo" ++ "`") :=
  unknown_engine_render_error "<!--template foo-->x" "foo" "x" Json.null (by rfl)

/-- C9: rendering with NoEngine — forced explicitly (for any file extension),
or selected by default when no path/extension and no marker are present —
returns the template text byte-identical, and the context has no effect on
the result. -/
theorem noengine_renders_verbatim (contents : String)
    (fe : Option (Option String)) (ctx ctx2 : Json)
    (h : findMarker contents = Option.none) :
    render ⟨contents, fe⟩ ctx (DetectionMethod.force TemplateEngine.none) =
      Except.ok (RenderResult.output contents) ∧
    render ⟨contents, Option.none⟩ ctx DetectionMethod.auto =
      Except.ok (RenderResult.output contents) ∧
    render ⟨contents, some Option.none⟩ ctx DetectionMethod.auto =
      Except.ok (RenderResult.output contents) ∧
    render ⟨contents, Option.none⟩ ctx DetectionMethod.auto =
      render ⟨contents, Option.none⟩ ctx2 DetectionMethod.auto := by
  have hstr : template_from_str contents = Template.noEngine contents := by
    rw [template_from_str, h]
  have hauto : ∀ (fx : Option (Option String)) (cx : Json),
      template_from_data ⟨contents, fx⟩ = Template.noEngine contents →
      render ⟨contents, fx⟩ cx DetectionMethod.auto =
        Except.ok (RenderResult.output contents) := by
    intro fx cx hsel
    show (match selectTemplate ⟨contents, fx⟩ DetectionMethod.auto with
      | Template.tera c => Except.ok (RenderResult.engineInvocation "tera" c cx)
      | Template.handlebars c => Except.ok (RenderResult.engineInvocation "handlebars" c cx)
      | Template.liquid c => Except.ok (RenderResult.engineInvocation "liquid" c cx)
      | Template.unknown engine _ => Except.error ("Unknown template engine: `" ++ engine ++ "`")
      | Template.noEngine raw => Except.ok (RenderResult.output raw)) = _
    rw [show selectTemplate ⟨contents, fx⟩ DetectionMethod.auto =
        Template.noEngine contents from hsel]
  refine ⟨rfl, hauto Option.none ctx hstr, hauto (some Option.none) ctx hstr, ?_⟩
  rw [hauto Option.none ctx hstr, hauto Option.none ctx2 hstr]

/-- C9 witness: verbatim NoEngine rendering of a marker-free text, forced
with an extension present and auto-selected without one, under two different
contexts. -/
theorem noengine_renders_verbatim_witness :
    render ⟨"plain body", some (some "txt")⟩ Json.null
        (DetectionMethod.force TemplateEngine.none) =
      Except.ok (RenderResult.output "plain body") ∧
    render ⟨"plain body", Option.none⟩ Json.null DetectionMethod.auto =
      Except.ok (RenderResult.output "plain body") ∧
    render ⟨"plain body", some Option.none⟩ Json.null DetectionMethod.auto =
      Except.ok (RenderResult.output "plain body") ∧
    render ⟨"plain body", Option.none⟩ Json.null DetectionMethod.auto =
      render ⟨"plain body", Option.none⟩ (Json.num 3) DetectionMethod.auto :=
  noengine_renders_verbatim "plain body" (some (some "txt")) Json.null
    (Json.num 3) (by rfl)


end OsaMailer
